import Mathlib

/-!
Verification of the aslam_cv2 stereo matcher
(src/aslam_cv_matcher/include/aslam/matcher/stereo-matcher.h).

Shallow embedding conventions: C++ `int`/`unsigned int` become `Int`/`Nat`
(no overflow is reachable in the claims treated here), `float`/`double`
arithmetic is embedded as exact rational arithmetic over `ℚ`, and a fatal
`CHECK_*` assertion is embedded either as an `Option` result (`none` when the
check fires) or as an explicit precondition of the theorem.
-/

namespace Aslam

/-- Truncation toward zero of a rational number, the semantics of C++
`static_cast<int>` applied to a floating-point value. -/
def truncCpp (q : ℚ) : ℤ :=
  if q < 0 then ⌈q⌉ else ⌊q⌋

/-- Embedding of `StereoMatcher::clamp` (stereo-matcher.h, lines 192-195):
`std::min<int>(std::max<int>(in, lower), upper)`. -/
def clamp (lower upper inp : ℤ) : ℤ :=
  min (max inp lower) upper

/-- Embedding of `StereoMatcher::computeMatchingScore` (lines 197-201):
`static_cast<double>(num_matching_bits) / descriptor_size_bits`, with the
`double` division embedded as exact division in `ℚ`. -/
def computeMatchingScore (num_matching_bits : ℤ) (descriptor_size_bits : ℕ) : ℚ :=
  (num_matching_bits : ℚ) / (descriptor_size_bits : ℚ)

/-- The constant `kLoweRatio = 0.8f` (line 157), embedded as the exact
rational value 4/5. -/
def kLoweRatioValue : ℚ := 4 / 5

/-- Embedding of `StereoMatcher::ratioTest` (lines 203-220).  The entry
assertion `CHECK_LE(distance_closest, distance_second_closest)` is embedded as
the `Option`: the result is `none` when the check fires.  The `float`
division and comparison against `kLoweRatio` are embedded as exact rational
arithmetic. -/
def ratioTest (descriptor_size_bits distance_closest distance_second_closest : ℕ) :
    Option Bool :=
  if distance_closest ≤ distance_second_closest then
    some
      (if distance_second_closest > descriptor_size_bits then true
       else if distance_second_closest = 0 then true
       else decide
         ((distance_closest : ℚ) / (distance_second_closest : ℚ) < kLoweRatioValue))
  else none

/-- Embedding of `StereoMatcher::MatchData` (lines 80-95).  The
`KeyPointIterator` entries are embedded as stable indices into the sorted
keypoint array of frame 1. -/
structure MatchData where
  keypoint_match_candidates_frame1 : List ℕ
  match_candidate_matching_scores : List ℚ
deriving DecidableEq

/-- Embedding of `StereoMatcher::MatchData::addCandidate` (lines 83-90).
The assertions `CHECK_GT(matching_score, 0.0)` and
`CHECK_LE(matching_score, 1.0)` are embedded as the `Option`: the result is
`none` when either check fires. -/
def MatchData.addCandidate (md : MatchData) (keypoint_iterator_frame1 : ℕ)
    (matching_score : ℚ) : Option MatchData :=
  if 0 < matching_score ∧ matching_score ≤ 1 then
    some
      ⟨md.keypoint_match_candidates_frame1 ++ [keypoint_iterator_frame1],
       md.match_candidate_matching_scores ++ [matching_score]⟩
  else none

/-- A `MatchData` built by recording a whole list of candidates in order,
starting from a given state; `none` as soon as one `addCandidate` check
fires. -/
def MatchData.addCandidates (md : MatchData) (cs : List (ℕ × ℚ)) :
    Option MatchData :=
  cs.foldlM (fun m c => m.addCandidate c.1 c.2) md

/-- Claim C3: for every descriptor size `bits > 0` and Hamming distance
`d ≤ bits`, the score computed from the number of matching bits `bits - d`
equals `1 - d / bits`. -/
theorem computeMatchingScore_eq (bits d : ℕ) (hbits : 0 < bits) (hd : d ≤ bits) :
    computeMatchingScore ((bits : ℤ) - (d : ℤ)) bits = 1 - (d : ℚ) / (bits : ℚ) := by
  have hb : (bits : ℚ) ≠ 0 := Nat.cast_ne_zero.mpr hbits.ne'
  unfold computeMatchingScore
  push_cast
  field_simp

/-- Witness for `computeMatchingScore_eq` at `bits = 256`, `d = 32`. -/
theorem computeMatchingScore_eq_witness :
    computeMatchingScore ((256 : ℤ) - (32 : ℤ)) 256 = 1 - (32 : ℚ) / (256 : ℚ) :=
  computeMatchingScore_eq 256 32 (by norm_num) (by norm_num)

/-- Claim C2: for `d1 ≤ d2`, the ratio test returns true if `d2 > bits`,
returns true if `d2 = 0`, and otherwise returns true exactly when
`d1 / d2 < 0.8`. -/
theorem ratioTest_law (bits d1 d2 : ℕ) (h : d1 ≤ d2) :
    (d2 > bits → ratioTest bits d1 d2 = some true) ∧
    (d2 = 0 → ratioTest bits d1 d2 = some true) ∧
    (d2 ≤ bits → d2 ≠ 0 →
      (ratioTest bits d1 d2 = some true ↔ (d1 : ℚ) / (d2 : ℚ) < 4 / 5)) := by
  unfold ratioTest kLoweRatioValue
  refine ⟨fun hgt => ?_, fun h0 => ?_, fun hle h0 => ?_⟩
  · simp [h, hgt]
  · simp [h, h0]; omega
  · have hnotgt : ¬ d2 > bits := not_lt.mpr hle
    simp [h, hnotgt, h0]

/-- Witness for `ratioTest_law` in the third branch, at `bits = 256`,
`d1 = 10`, `d2 = 20`. -/
theorem ratioTest_law_witness :
    ratioTest 256 10 20 = some true ↔ (10 : ℚ) / (20 : ℚ) < 4 / 5 :=
  (ratioTest_law 256 10 20 (by norm_num)).2.2 (by norm_num) (by norm_num)

/-- Claim C10: with `descriptor_size_bits = 0` the ratio test accepts every
pair `d1 ≤ d2`: `d2 > 0` takes the no-second-candidate branch and `d2 = 0`
the degenerate branch. -/
theorem ratioTest_zero_bits (d1 d2 : ℕ) (h : d1 ≤ d2) :
    ratioTest 0 d1 d2 = some true := by
  unfold ratioTest
  rcases Nat.eq_zero_or_pos d2 with h0 | hpos
  · simp [h, h0]; omega
  · simp [h, hpos, Nat.pos_iff_ne_zero.mp hpos]

/-- Witness for `ratioTest_zero_bits` at `d1 = 3`, `d2 = 5`. -/
theorem ratioTest_zero_bits_witness : ratioTest 0 3 5 = some true :=
  ratioTest_zero_bits 3 5 (by norm_num)

/-- Claim C7: `addCandidate` succeeds (no assertion fires) exactly for scores
in `(0, 1]`, and every score stored in a `MatchData` whose scores were all in
`(0, 1]` stays in `(0, 1]` after a successful `addCandidate`. -/
theorem addCandidate_score_range (md : MatchData) (it : ℕ) (s : ℚ) :
    (0 < s → s ≤ 1 → (md.addCandidate it s).isSome) ∧
    (∀ md', md.addCandidate it s = some md' →
      (∀ q ∈ md.match_candidate_matching_scores, 0 < q ∧ q ≤ 1) →
      ∀ q ∈ md'.match_candidate_matching_scores, 0 < q ∧ q ≤ 1) := by
  constructor
  · intro h0 h1
    simp [MatchData.addCandidate, h0, h1]
  · intro md' hmd hprev q hq
    unfold MatchData.addCandidate at hmd
    by_cases hs : 0 < s ∧ s ≤ 1
    · rw [if_pos hs] at hmd
      cases hmd
      simp only [List.mem_append, List.mem_singleton] at hq
      rcases hq with hq | hq
      · exact hprev q hq
      · rw [hq]; exact hs
    · simp [hs] at hmd

/-- Witness for `addCandidate_score_range` at the empty `MatchData`,
index 0 and score 1. -/
theorem addCandidate_score_range_witness :
    ((MatchData.mk [] []).addCandidate 0 1).isSome ∧
    ∀ q ∈ (MatchData.mk [0] [1]).match_candidate_matching_scores,
      0 < q ∧ q ≤ 1 := by
  refine ⟨(addCandidate_score_range (MatchData.mk [] []) 0 1).1 (by norm_num)
      (by norm_num),
    (addCandidate_score_range (MatchData.mk [] []) 0 1).2 (MatchData.mk [0] [1])
      ?_ ?_⟩
  · simp [MatchData.addCandidate]
  · simp

/-- Embedding of the LUT row index `LUT_index_top` computed by
`StereoMatcher::getKeypointIteratorsInWindow` (lines 171-174):
`clamp(0, kImageHeight - 1, static_cast<int>(predicted_y + 0.5 - window))`. -/
def lutIndexTop (kImageHeight : ℕ) (predicted_y : ℚ)
    (window_half_side_length_px : ℤ) : ℤ :=
  clamp 0 ((kImageHeight : ℤ) - 1)
    (truncCpp (predicted_y + 1 / 2 - (window_half_side_length_px : ℚ)))

/-- Embedding of the LUT row index `LUT_index_bottom` computed by
`StereoMatcher::getKeypointIteratorsInWindow` (lines 175-178):
`clamp(0, kImageHeight - 1, static_cast<int>(predicted_y + 0.5 + window))`. -/
def lutIndexBottom (kImageHeight : ℕ) (predicted_y : ℚ)
    (window_half_side_length_px : ℤ) : ℤ :=
  clamp 0 ((kImageHeight : ℤ) - 1)
    (truncCpp (predicted_y + 1 / 2 + (window_half_side_length_px : ℚ)))

/-- Embedding of the index range `[corner_row_LUT_[LUT_index_top],
corner_row_LUT_[LUT_index_bottom])` into `keypoints_frame1_sorted_by_y_`
returned through the two iterator out-parameters of
`StereoMatcher::getKeypointIteratorsInWindow` (lines 180-183).  The lookup
table `corner_row_LUT_` is a parameter, its construction not being part of
the given sources. -/
def getKeypointIteratorsInWindow (corner_row_LUT : ℤ → ℕ) (kImageHeight : ℕ)
    (predicted_y : ℚ) (window_half_side_length_px : ℤ) : ℕ × ℕ :=
  (corner_row_LUT (lutIndexTop kImageHeight predicted_y window_half_side_length_px),
   corner_row_LUT (lutIndexBottom kImageHeight predicted_y window_half_side_length_px))

/-- Truncation toward zero is monotone. -/
theorem truncCpp_mono : Monotone truncCpp := by
  intro a b hab
  unfold truncCpp
  by_cases ha : a < 0 <;> by_cases hb : b < 0 <;> simp only [ha, hb, if_pos, if_neg,
    if_true, if_false]
  · exact Int.ceil_mono hab
  · exact le_trans (Int.ceil_le.mpr (by exact_mod_cast ha.le))
      (Int.floor_nonneg.mpr (not_lt.mp hb))
  · exact absurd (lt_of_le_of_lt hab hb) ha
  · exact Int.floor_mono hab

/-- `clamp` is monotone in its input argument. -/
theorem clamp_mono (lower upper : ℤ) {a b : ℤ} (hab : a ≤ b) :
    clamp lower upper a ≤ clamp lower upper b :=
  min_le_min (max_le_max hab le_rfl) le_rfl

/-- `clamp lower upper` lands in `[lower, upper]` when `lower ≤ upper`. -/
theorem clamp_mem (lower upper inp : ℤ) (h : lower ≤ upper) :
    lower ≤ clamp lower upper inp ∧ clamp lower upper inp ≤ upper :=
  ⟨le_min (le_max_right inp lower) h, min_le_right _ _⟩

/-- `clamp 0 upper` sends every nonpositive input to `0` when `0 ≤ upper`. -/
theorem clamp_of_nonpos {upper inp : ℤ} (hu : 0 ≤ upper) (hx : inp ≤ 0) :
    clamp 0 upper inp = 0 := by
  unfold clamp
  rw [max_eq_right hx, min_eq_left hu]

/-- Claim C4: for a positive half window and image height at least 1, the two
LUT row indices satisfy `top ≤ bottom` and both lie in
`[0, kImageHeight - 1]`, so none of the assertions at the end of
`getKeypointIteratorsInWindow` fires. -/
theorem window_indices_in_bounds (kImageHeight : ℕ) (predicted_y : ℚ) (w : ℤ)
    (hh : 1 ≤ kImageHeight) (hw : 0 < w) :
    lutIndexTop kImageHeight predicted_y w ≤ lutIndexBottom kImageHeight predicted_y w ∧
    0 ≤ lutIndexTop kImageHeight predicted_y w ∧
    0 ≤ lutIndexBottom kImageHeight predicted_y w ∧
    lutIndexTop kImageHeight predicted_y w < (kImageHeight : ℤ) ∧
    lutIndexBottom kImageHeight predicted_y w < (kImageHeight : ℤ) := by
  have hu : (0 : ℤ) ≤ (kImageHeight : ℤ) - 1 := by
    have : (1 : ℤ) ≤ (kImageHeight : ℤ) := by exact_mod_cast hh
    omega
  have harg : predicted_y + 1 / 2 - (w : ℚ) ≤ predicted_y + 1 / 2 + (w : ℚ) := by
    have : (0 : ℚ) ≤ (w : ℚ) := by exact_mod_cast hw.le
    linarith
  have htop := clamp_mem 0 ((kImageHeight : ℤ) - 1)
    (truncCpp (predicted_y + 1 / 2 - (w : ℚ))) hu
  have hbot := clamp_mem 0 ((kImageHeight : ℤ) - 1)
    (truncCpp (predicted_y + 1 / 2 + (w : ℚ))) hu
  refine ⟨clamp_mono 0 ((kImageHeight : ℤ) - 1) (truncCpp_mono harg),
    htop.1, hbot.1, ?_, ?_⟩
  · exact lt_of_le_of_lt htop.2 (by omega)
  · exact lt_of_le_of_lt hbot.2 (by omega)

/-- Witness for `window_indices_in_bounds` at `kImageHeight = 480`,
`predicted_y = 5`, `w = 10`. -/
theorem window_indices_in_bounds_witness :
    lutIndexTop 480 5 10 ≤ lutIndexBottom 480 5 10 ∧
    0 ≤ lutIndexTop 480 5 10 ∧ 0 ≤ lutIndexBottom 480 5 10 ∧
    lutIndexTop 480 5 10 < (480 : ℤ) ∧ lutIndexBottom 480 5 10 < (480 : ℤ) :=
  window_indices_in_bounds 480 5 10 (by norm_num) (by norm_num)

/-- Claim C5: at a fixed predicted position, with a monotonically
non-decreasing row lookup table, widening the half window from `w1` to
`w2 ≥ w1` yields a superset index range: the half-open range returned with
`w1` is contained in the one returned with `w2`. -/
theorem window_monotone (corner_row_LUT : ℤ → ℕ) (kImageHeight : ℕ)
    (predicted_y : ℚ) (w1 w2 : ℤ) (hlut : Monotone corner_row_LUT)
    (hh : 1 ≤ kImageHeight) (hw1 : 0 < w1) (hw : w1 ≤ w2) :
    Set.Ico (getKeypointIteratorsInWindow corner_row_LUT kImageHeight predicted_y w1).1
        (getKeypointIteratorsInWindow corner_row_LUT kImageHeight predicted_y w1).2 ⊆
      Set.Ico (getKeypointIteratorsInWindow corner_row_LUT kImageHeight predicted_y w2).1
        (getKeypointIteratorsInWindow corner_row_LUT kImageHeight predicted_y w2).2 := by
  have hwq : (w1 : ℚ) ≤ (w2 : ℚ) := by exact_mod_cast hw
  apply Set.Ico_subset_Ico
  · exact hlut (clamp_mono 0 ((kImageHeight : ℤ) - 1)
      (truncCpp_mono (by linarith)))
  · exact hlut (clamp_mono 0 ((kImageHeight : ℤ) - 1)
      (truncCpp_mono (by linarith)))

/-- Witness for `window_monotone` with `corner_row_LUT = Int.toNat`,
`kImageHeight = 480`, `predicted_y = 100`, `w1 = 5`, `w2 = 12`. -/
theorem window_monotone_witness :
    Set.Ico (getKeypointIteratorsInWindow Int.toNat 480 100 5).1
        (getKeypointIteratorsInWindow Int.toNat 480 100 5).2 ⊆
      Set.Ico (getKeypointIteratorsInWindow Int.toNat 480 100 12).1
        (getKeypointIteratorsInWindow Int.toNat 480 100 12).2 :=
  window_monotone Int.toNat 480 100 5 12
    (fun _ _ hab => Int.toNat_le_toNat hab) (by norm_num) (by norm_num) (by norm_num)

/-- The predicted row of a predicted keypoint position: its vertical
coordinate rounded to the nearest integer row, exactly as the code rounds it
(`static_cast<int>` of `predicted_keypoint_position(1) + 0.5`). -/
def predictedRow (predicted_y : ℚ) : ℤ :=
  truncCpp (predicted_y + 1 / 2)

/-- Restatement of the window-query formula in the spec's words, to be
compared with `getKeypointIteratorsInWindow`: `top = clamp(0,
image_height - 1, predicted_y - half_height)`, `bottom = clamp(0,
image_height - 1, predicted_y + half_height)`, result `[lut[top],
lut[bottom])`, where `predicted_y` denotes the predicted row. -/
def windowQuerySpec (corner_row_LUT : ℤ → ℕ) (kImageHeight : ℕ)
    (predicted_y : ℚ) (half_height : ℤ) : ℕ × ℕ :=
  (corner_row_LUT
     (clamp 0 ((kImageHeight : ℤ) - 1) (predictedRow predicted_y - half_height)),
   corner_row_LUT
     (clamp 0 ((kImageHeight : ℤ) - 1) (predictedRow predicted_y + half_height)))

/-- Claim C6: for a predicted keypoint position with nonnegative vertical
coordinate, a positive half window and image height at least 1, the window
query computes exactly the clamped row range of the spec formula and returns
the half-open index range `[lut[top], lut[bottom])`. -/
theorem window_query_matches_spec (corner_row_LUT : ℤ → ℕ) (kImageHeight : ℕ)
    (predicted_y : ℚ) (w : ℤ) (hy : 0 ≤ predicted_y) (hw : 0 < w)
    (hh : 1 ≤ kImageHeight) :
    getKeypointIteratorsInWindow corner_row_LUT kImageHeight predicted_y w =
      windowQuerySpec corner_row_LUT kImageHeight predicted_y w := by
  have hu : (0 : ℤ) ≤ (kImageHeight : ℤ) - 1 := by
    have : (1 : ℤ) ≤ (kImageHeight : ℤ) := by exact_mod_cast hh
    omega
  have hwq : (0 : ℚ) < (w : ℚ) := by exact_mod_cast hw
  have hx : (0 : ℚ) ≤ predicted_y + 1 / 2 := by linarith
  have hrow : predictedRow predicted_y = ⌊predicted_y + 1 / 2⌋ := by
    unfold predictedRow truncCpp
    rw [if_neg (not_lt.mpr hx)]
  have hbottom : truncCpp (predicted_y + 1 / 2 + (w : ℚ)) =
      predictedRow predicted_y + w := by
    unfold truncCpp
    rw [if_neg (not_lt.mpr (by linarith)), hrow]
    exact Int.floor_add_int (predicted_y + 1 / 2) w
  have htop : clamp 0 ((kImageHeight : ℤ) - 1)
        (truncCpp (predicted_y + 1 / 2 - (w : ℚ))) =
      clamp 0 ((kImageHeight : ℤ) - 1) (predictedRow predicted_y - w) := by
    by_cases hc : predicted_y + 1 / 2 - (w : ℚ) < 0
    · have h1 : truncCpp (predicted_y + 1 / 2 - (w : ℚ)) ≤ 0 := by
        unfold truncCpp
        rw [if_pos hc]
        exact Int.ceil_le.mpr (by exact_mod_cast hc.le)
      have h2 : predictedRow predicted_y - w ≤ 0 := by
        rw [hrow]
        have : ⌊predicted_y + 1 / 2⌋ < w := Int.floor_lt.mpr (by linarith)
        omega
      rw [clamp_of_nonpos hu h1, clamp_of_nonpos hu h2]
    · unfold truncCpp
      rw [if_neg hc, hrow]
      rw [show predicted_y + 1 / 2 - (w : ℚ) = predicted_y + 1 / 2 - ((w : ℤ) : ℚ)
        from by norm_num]
      rw [Int.floor_sub_int (predicted_y + 1 / 2) w]
  unfold getKeypointIteratorsInWindow windowQuerySpec lutIndexTop lutIndexBottom
  rw [htop, hbottom]

/-- Witness for `window_query_matches_spec` with `corner_row_LUT = Int.toNat`,
`kImageHeight = 10`, `predicted_y = 3/2`, `w = 2`. -/
theorem window_query_matches_spec_witness :
    getKeypointIteratorsInWindow Int.toNat 10 (3 / 2) 2 =
      windowQuerySpec Int.toNat 10 (3 / 2) 2 :=
  window_query_matches_spec Int.toNat 10 (3 / 2) 2 (by norm_num) (by norm_num)
    (by norm_num)

/-- Modelled from the spec: an entry of the output collection
`StereoMatchesWithScore` emitted by `StereoMatcher::match` (the bodies of
`match`, `matchKeypoint` and `matchInferiorMatches` are only declared in the
given sources).  A finalized (frame-0 index, frame-1 index, score) triple. -/
structure MatchEntry where
  idx_frame0 : ℕ
  idx_frame1 : ℕ
  score : ℚ
deriving DecidableEq

/-- The list of frame-0 indices of a match list. -/
def frame0Indices (ms : List MatchEntry) : List ℕ :=
  ms.map MatchEntry.idx_frame0

/-- The list of frame-1 indices of a match list. -/
def frame1Indices (ms : List MatchEntry) : List ℕ :=
  ms.map MatchEntry.idx_frame1

/-- Modelled from the spec: installing a candidate `(a, b, s)` into the
current match list, maintaining `frame1_idx_to_matches_iterator_map_`
semantics — if frame-1 index `b` is unassigned the match is appended; if it
is held with a strictly lower score the incumbent entry is replaced
(evicting the incumbent to the inferior set); otherwise nothing changes (the
candidate itself is deemed inferior). -/
def installCandidate (a b : ℕ) (s : ℚ) : List MatchEntry → List MatchEntry
  | [] => [⟨a, b, s⟩]
  | m :: rest =>
    if m.idx_frame1 = b then
      (if m.score < s then (⟨a, b, s⟩ : MatchEntry) :: rest else m :: rest)
    else m :: installCandidate a b s rest

/-- Modelled from the spec: processing one proposal `(a, b, s)` where `a` is
the frame-0 keypoint and `(b, s)` its selected best candidate.  Both the
initial matcher and the inferior-match resolver only propose frame-0
keypoints that hold no current assignment (each keypoint is tried once in
the first pass, and the inferior set contains only evicted or never-assigned
keypoints); a proposal for an already assigned frame-0 index is a no-op. -/
def processProposal (ms : List MatchEntry) (p : ℕ × ℕ × ℚ) : List MatchEntry :=
  if p.1 ∈ frame0Indices ms then ms else installCandidate p.1 p.2.1 p.2.2 ms

/-- Modelled from the spec: the output of one `match` call as the result of
folding an arbitrary sequence of proposals (first pass followed by resolver
rounds) over the freshly initialized empty match list. -/
def matchModel (proposals : List (ℕ × ℕ × ℚ)) : List MatchEntry :=
  proposals.foldl processProposal []

/-- Exclusivity of a match list: no frame-0 index and no frame-1 index
appears twice. -/
def Exclusive (ms : List MatchEntry) : Prop :=
  (frame0Indices ms).Nodup ∧ (frame1Indices ms).Nodup

/-- Every frame-1 index present after `installCandidate a b s` is `b` or was
present before. -/
theorem installCandidate_frame1_subset (a b : ℕ) (s : ℚ) (ms : List MatchEntry) :
    ∀ x ∈ frame1Indices (installCandidate a b s ms), x = b ∨ x ∈ frame1Indices ms := by
  induction ms with
  | nil => simp [installCandidate, frame1Indices]
  | cons m rest ih =>
    intro x hx
    by_cases hm : m.idx_frame1 = b
    · by_cases hs : m.score < s <;>
        simp only [installCandidate, hm, hs, if_pos, if_neg, if_true, if_false,
          frame1Indices, List.map_cons, List.mem_cons] at hx ⊢ <;> tauto
    · simp only [installCandidate, hm, if_neg, ite_false, frame1Indices,
        List.map_cons, List.mem_cons] at hx ⊢
      rcases hx with hx | hx
      · tauto
      · rcases ih x hx with h1 | h1 <;> tauto

/-- Every frame-0 index present after `installCandidate a b s` is `a` or was
present before. -/
theorem installCandidate_frame0_subset (a b : ℕ) (s : ℚ) (ms : List MatchEntry) :
    ∀ x ∈ frame0Indices (installCandidate a b s ms), x = a ∨ x ∈ frame0Indices ms := by
  induction ms with
  | nil => simp [installCandidate, frame0Indices]
  | cons m rest ih =>
    intro x hx
    by_cases hm : m.idx_frame1 = b
    · by_cases hs : m.score < s <;>
        simp only [installCandidate, hm, hs, if_pos, if_neg, if_true, if_false,
          frame0Indices, List.map_cons, List.mem_cons] at hx ⊢ <;> tauto
    · simp only [installCandidate, hm, if_neg, ite_false, frame0Indices,
        List.map_cons, List.mem_cons] at hx ⊢
      rcases hx with hx | hx
      · tauto
      · rcases ih x hx with h1 | h1 <;> tauto

/-- `installCandidate` keeps the frame-1 indices duplicate-free. -/
theorem installCandidate_frame1_nodup (a b : ℕ) (s : ℚ) (ms : List MatchEntry)
    (h : (frame1Indices ms).Nodup) :
    (frame1Indices (installCandidate a b s ms)).Nodup := by
  induction ms with
  | nil => simp [installCandidate, frame1Indices]
  | cons m rest ih =>
    simp only [frame1Indices, List.map_cons, List.nodup_cons] at h
    by_cases hm : m.idx_frame1 = b
    · by_cases hs : m.score < s <;>
        simp only [installCandidate, hm, hs, if_pos, if_neg, if_true, if_false,
          frame1Indices, List.map_cons, List.nodup_cons] <;>
        exact ⟨by rw [← hm] at *; exact fun hc => h.1 (by simpa [frame1Indices] using hc),
          by simpa [frame1Indices] using h.2⟩
    · simp only [installCandidate, hm, ite_false, frame1Indices, List.map_cons,
        List.nodup_cons]
      refine ⟨fun hc => ?_, ih h.2⟩
      rcases installCandidate_frame1_subset a b s rest m.idx_frame1 hc with h1 | h1
      · exact hm h1
      · exact h.1 (by simpa [frame1Indices] using h1)

/-- `installCandidate` keeps the frame-0 indices duplicate-free, provided the
installed frame-0 index holds no current assignment. -/
theorem installCandidate_frame0_nodup (a b : ℕ) (s : ℚ) (ms : List MatchEntry)
    (ha : a ∉ frame0Indices ms) (h : (frame0Indices ms).Nodup) :
    (frame0Indices (installCandidate a b s ms)).Nodup := by
  induction ms with
  | nil => simp [installCandidate, frame0Indices]
  | cons m rest ih =>
    simp only [frame0Indices, List.map_cons, List.nodup_cons] at h
    simp only [frame0Indices, List.map_cons, List.mem_cons, not_or] at ha
    by_cases hm : m.idx_frame1 = b
    · by_cases hs : m.score < s <;>
        simp only [installCandidate, hm, hs, if_pos, if_neg, if_true, if_false,
          frame0Indices, List.map_cons, List.nodup_cons]
      · exact ⟨by simpa [frame0Indices] using ha.2, by simpa [frame0Indices] using h.2⟩
      · exact ⟨by simpa [frame0Indices] using h.1, by simpa [frame0Indices] using h.2⟩
    · simp only [installCandidate, hm, ite_false, frame0Indices, List.map_cons,
        List.nodup_cons]
      refine ⟨fun hc => ?_, ih ha.2 h.2⟩
      rcases installCandidate_frame0_subset a b s rest m.idx_frame0 hc with h1 | h1
      · exact ha.1 h1.symm
      · exact h.1 (by simpa [frame0Indices] using h1)

/-- `processProposal` preserves exclusivity. -/
theorem processProposal_exclusive (ms : List MatchEntry) (p : ℕ × ℕ × ℚ)
    (h : Exclusive ms) : Exclusive (processProposal ms p) := by
  unfold processProposal
  by_cases hp : p.1 ∈ frame0Indices ms
  · simpa [hp] using h
  · rw [if_neg hp]
    exact ⟨installCandidate_frame0_nodup p.1 p.2.1 p.2.2 ms hp h.1,
      installCandidate_frame1_nodup p.1 p.2.1 p.2.2 ms h.2⟩

/-- A fold of proposals over an exclusive match list stays exclusive. -/
theorem foldl_processProposal_exclusive (ps : List (ℕ × ℕ × ℚ)) :
    ∀ ms : List MatchEntry, Exclusive ms → Exclusive (ps.foldl processProposal ms) := by
  induction ps with
  | nil => intro ms h; simpa using h
  | cons p rest ih =>
    intro ms h
    simpa using ih (processProposal ms p) (processProposal_exclusive ms p h)

/-- Claim C1: for every sequence of proposals processed by one `match` call,
the returned match collection is exclusive in both directions: no frame-0
index and no frame-1 index appears more than once. -/
theorem matchModel_exclusive (proposals : List (ℕ × ℕ × ℚ)) :
    Exclusive (matchModel proposals) :=
  foldl_processProposal_exclusive proposals [] (by constructor <;> simp [frame0Indices, frame1Indices])

/-- Embedding of the constant `kMaxNumInferiorIterations = 3u`
(stereo-matcher.h, lines 158-159). -/
def kMaxNumInferiorIterations : ℕ := 3

/-- Modelled from the spec: the resolver loop inside `match` (whose body is
only declared in the given sources) repeatedly calls
`matchInferiorMatches`, embedded as an abstract round function `step` on the
per-call state returning the new state and whether the round installed any
new assignment.  `resolverLoop step n st` runs at most `n` rounds, stopping
as soon as a round returns `false`, and returns the final state together
with the number of rounds executed. -/
def resolverLoop {σ : Type} (step : σ → σ × Bool) : ℕ → σ → σ × ℕ
  | 0, st => (st, 0)
  | n + 1, st =>
    if (step st).2 then
      ((resolverLoop step n (step st).1).1, (resolverLoop step n (step st).1).2 + 1)
    else ((step st).1, 1)

/-- Modelled from the spec: the inferior-match resolution phase of one
`match` call runs `resolverLoop` with the `kMaxNumInferiorIterations`
budget. -/
def runInferiorMatching {σ : Type} (step : σ → σ × Bool) (st : σ) : σ × ℕ :=
  resolverLoop step kMaxNumInferiorIterations st

/-- `resolverLoop` with budget `n` executes at most `n` rounds. -/
theorem resolverLoop_le {σ : Type} (step : σ → σ × Bool) :
    ∀ (n : ℕ) (st : σ), (resolverLoop step n st).2 ≤ n := by
  intro n
  induction n with
  | zero => intro st; simp [resolverLoop]
  | succ n ih =>
    intro st
    unfold resolverLoop
    by_cases hs : (step st).2 <;> simp [hs]
    exact ih (step st).1

/-- Claim C8: the inferior-match resolver executes at most
`kMaxNumInferiorIterations = 3` rounds per `match` call, and a round that
installs zero new assignments (returns `false`) terminates the resolver
immediately — one round runs and the loop returns — even when rounds
remain. -/
theorem resolver_bounded {σ : Type} (step : σ → σ × Bool) (st : σ) :
    (runInferiorMatching step st).2 ≤ kMaxNumInferiorIterations ∧
    (∀ (n : ℕ) (s s1 : σ), step s = (s1, false) →
      resolverLoop step (n + 1) s = (s1, 1)) := by
  refine ⟨resolverLoop_le step kMaxNumInferiorIterations st, ?_⟩
  intro n s s1 hstep
  unfold resolverLoop
  rw [hstep]
  simp

/-- Witness for `resolver_bounded` with the state type `ℕ` and a round
function that never installs a new assignment. -/
theorem resolver_bounded_witness :
    (runInferiorMatching (fun s : ℕ => (s + 1, false)) 0).2 ≤
      kMaxNumInferiorIterations ∧
    resolverLoop (fun s : ℕ => (s + 1, false)) 3 5 = (6, 1) :=
  ⟨(resolver_bounded (fun s : ℕ => (s + 1, false)) 0).1,
   (resolver_bounded (fun s : ℕ => (s + 1, false)) 0).2 2 5 6 rfl⟩

/-- Embedding of the `alsam::NCamera` camera rig as far as the constructor
observes it: `getCameraShared(camera_id)->imageHeight()` becomes a function
from camera id to image height. -/
structure NCamera where
  imageHeightOf : ℕ → ℕ

/-- Embedding of `dense_reconstruction::StereoPairIdentifier` as far as the
constructor observes it. -/
structure StereoPairIdentifier where
  first_camera_id : ℕ

/-- The member state of a constructed `StereoMatcher`. -/
structure StereoMatcherState where
  stereo_pair_ : StereoPairIdentifier
  camera_rig_ : NCamera
  kImageHeight : ℕ

/-- Embedding of the `StereoMatcher` constructor (stereo-matcher.h, lines
42-49).  Its initializer list reads `camera_rig_(camera_rig_)`: the member
`camera_rig_` is initialized from itself — the not-yet-initialized member,
not the `camera_rig` argument — so its value is indeterminate, embedded here
as the extra parameter `indeterminate_rig`; `kImageHeight` is then computed
from that same indeterminate member.  The `camera_rig` argument is kept as a
parameter to show it is never read. -/
def mkStereoMatcher (stereo_pair : StereoPairIdentifier) (camera_rig : NCamera)
    (indeterminate_rig : NCamera) : StereoMatcherState :=
  { stereo_pair_ := stereo_pair
    camera_rig_ := indeterminate_rig
    kImageHeight := indeterminate_rig.imageHeightOf stereo_pair.first_camera_id }

/-- Claim C9 fails on the code: with a camera rig whose camera 0 has image
height 480 and an indeterminate pre-initialization value of height 0, the
constructed matcher stores image height 0 and a camera rig whose height
disagrees with the argument rig — the self-initialization
`camera_rig_(camera_rig_)` drops the constructor argument. -/
theorem mkStereoMatcher_self_init_bug :
    (mkStereoMatcher ⟨0⟩ ⟨fun _ => 480⟩ ⟨fun _ => 0⟩).kImageHeight = 0 ∧
    (NCamera.mk (fun _ => 480)).imageHeightOf 0 = 480 ∧
    (mkStereoMatcher ⟨0⟩ ⟨fun _ => 480⟩ ⟨fun _ => 0⟩).camera_rig_.imageHeightOf 0 ≠
      (NCamera.mk (fun _ => 480)).imageHeightOf 0 := by
  refine ⟨rfl, rfl, ?_⟩
  decide

end Aslam
